import Mathlib

/-!
# FluentHour — verified model of the session-library parser and runner

This file is a shallow embedding, in Lean 4, of the core logic of the
FluentHour web application (file `src/App.tsx` of the repository, the main
application snapshot): the session-library text parser
(`extractSessionBlocks`, `parseOneSessionBlock`, `parsePerfectHourText`),
the session selection strategies (`pickRandomTemplate`, `pickPathTemplate`),
and the session runner state machine (the one-second tick, `toggleRun`,
`skipToNext`, `startSessionFromTemplate`).

Modelling conventions:
* JavaScript strings are modelled as Lean `String`s viewed as lists of
  characters.  `String.prototype.toLowerCase`/`toUpperCase` are modelled by
  `Char.toLower`/`Char.toUpper`, which agree with JavaScript on ASCII (all
  marker and key text in the grammar is ASCII); `charCodeAt` is modelled by
  `Char.toNat`, which agrees with JavaScript on the Basic Multilingual Plane.
* JavaScript numbers that hold integral values (`minutes`,
  `remainingSeconds`, hash accumulators) are modelled as `Int`/`Nat`, with
  `Math.imul`/`>>> 0` modelled by explicit `% 2 ^ 32`.
* `Math.random()`-driven choice is modelled by an arbitrary index argument,
  and `String.prototype.localeCompare` (locale dependent, supplied by the
  host environment) by an arbitrary comparison argument.
* The regular-expression operations used by the source are implemented
  directly as scanning functions with JavaScript's leftmost, global,
  case-insensitive match semantics.
-/

namespace FluentHour

set_option maxRecDepth 1000000

/-! ## JavaScript string primitives -/

/-- The JavaScript whitespace class `\s`, which is also the class stripped
by `String.prototype.trim`. -/
def jsWs (c : Char) : Bool :=
  let n := c.toNat
  n == 9 || n == 10 || n == 11 || n == 12 || n == 13 || n == 32 ||
  n == 0xa0 || n == 0x1680 || (decide (0x2000 ≤ n) && decide (n ≤ 0x200a)) ||
  n == 0x2028 || n == 0x2029 || n == 0x202f || n == 0x205f ||
  n == 0x3000 || n == 0xfeff

/-- `String.prototype.trim`. -/
def jsTrim (s : String) : String :=
  ⟨((s.data.dropWhile jsWs).reverse.dropWhile jsWs).reverse⟩

/-- `String.prototype.toLowerCase` (ASCII fragment). -/
def lowerStr (s : String) : String := ⟨s.data.map Char.toLower⟩

/-- `String.prototype.toUpperCase` (ASCII fragment). -/
def upperStr (s : String) : String := ⟨s.data.map Char.toUpper⟩

/-- Lower-casing on character lists. -/
def lowerL (l : List Char) : List Char := l.map Char.toLower

/-- `Array.prototype.join(sep)`. -/
def joinSep (sep : String) : List String → String
  | [] => ""
  | [x] => x
  | x :: xs => x ++ sep ++ joinSep sep xs

/-- `string.slice(n)` (drop the first `n` UTF-16 units). -/
def strDrop (s : String) (n : Nat) : String := ⟨s.data.drop n⟩

/-- `line.toLowerCase().startsWith(p)`: the case-insensitive
`startsWith` tests used throughout the parser, with `p` lower case. -/
def lowStarts (l p : String) : Bool := p.data.isPrefixOf (lowerStr l).data

/-- `line.toUpperCase().startsWith(p)` with `p` upper case. -/
def upStarts (l p : String) : Bool := p.data.isPrefixOf (upperStr l).data

/-- First index at which `pat` occurs as a sublist of `l`
(`String.prototype.indexOf` on the chosen representation). -/
def findSub (pat : List Char) : List Char → Option Nat
  | [] => if pat = [] then some 0 else none
  | c :: rest =>
    if pat.isPrefixOf (c :: rest) then some 0
    else (findSub pat rest).map (· + 1)

/-- `haystack.includes(pat)`. -/
def containsSub (hay pat : String) : Bool := (findSub pat.data hay.data).isSome

/-- `parseInt(s, 10)`: leading whitespace, optional sign, decimal digits;
`none` models `NaN`. -/
def jsParseInt (s : String) : Option Int :=
  let l := s.data.dropWhile jsWs
  let signAndRest : Bool × List Char :=
    match l with
    | '-' :: r => (true, r)
    | '+' :: r => (false, r)
    | r => (false, r)
  let ds := signAndRest.2.takeWhile Char.isDigit
  if ds = [] then none
  else
    let n : Nat := ds.foldl (fun a c => a * 10 + (c.toNat - 48)) 0
    some (if signAndRest.1 then -(n : Int) else (n : Int))

/-! ## Hashing and identifiers (`stableId`, `clampMinutes`) -/

/-- One step of the FNV-1a loop of `stableId`:
`h ^= str.charCodeAt(i); h = Math.imul(h, 16777619)`, kept in `[0, 2^32)`. -/
def fnvStep (h : Nat) (c : Char) : Nat :=
  Nat.xor h c.toNat * 16777619 % 2 ^ 32

/-- The FNV-1a accumulation of `stableId` over a whole string
(offset basis `2166136261`, final `>>> 0` subsumed by working mod `2^32`). -/
def fnvHash (s : String) : Nat := s.data.foldl fnvStep 2166136261

/-- A hexadecimal digit character (lower case, as JavaScript `toString(16)`). -/
def hexDigit (n : Nat) : Char :=
  if n < 10 then Char.ofNat (48 + n) else Char.ofNat (87 + n)

/-- Base-16 digit expansion, most significant first; the fuel argument only
drives structural recursion (`n + 1` steps always suffice since the value is
divided by 16 each step). -/
def toHexAux : Nat → Nat → List Char → List Char
  | 0, _, acc => acc
  | fuel + 1, n, acc =>
    if n = 0 then acc else toHexAux fuel (n / 16) (hexDigit (n % 16) :: acc)

/-- `(h >>> 0).toString(16)`: lower-case hexadecimal, no leading zeros. -/
def toHex (n : Nat) : String :=
  if n = 0 then "0" else ⟨toHexAux (n + 1) n []⟩

/-- Base-10 digit expansion, most significant first (fuel as in
`toHexAux`). -/
def toDecAux : Nat → Nat → List Char → List Char
  | 0, _, acc => acc
  | fuel + 1, n, acc =>
    if n = 0 then acc else toDecAux fuel (n / 10) (hexDigit (n % 10) :: acc)

/-- `String(n)` for a non-negative integral JavaScript number. -/
def natStr (n : Nat) : String :=
  if n = 0 then "0" else ⟨toDecAux (n + 1) n []⟩

/-- `String(i)` for an integral JavaScript number. -/
def intStr (i : Int) : String :=
  if i < 0 then "-" ++ natStr i.natAbs else natStr i.toNat

/-- `stableId` from `src/App.tsx`: deterministic id
`"ph_" ++ hex(fnv1a(parts.join("||").trim().toLowerCase()))`. -/
def stableId (parts : List String) : String :=
  "ph_" ++ toHex (fnvHash (lowerStr (jsTrim (joinSep "||" parts))))

/-- Value of a hexadecimal digit character (inverse of `hexDigit`). -/
def hexVal (c : Char) : Nat :=
  if c.toNat ≤ 57 then c.toNat - 48 else c.toNat - 87

/-- Base-16 value of a digit list (inverse of `toHex`, used to show hex
rendering is injective). -/
def fromHexL (l : List Char) : Nat := l.foldl (fun a c => a * 16 + hexVal c) 0

/-- `clampMinutes` from `src/App.tsx`:
`Math.max(0, Math.min(180, Math.round(n)))`.  Every call site passes an
integral value, on which `Math.round` is the identity, and a non-`NaN`
value, so the `Number.isFinite` guard is the identity as well. -/
def clampMinutes (mins : Int) : Int := max 0 (min 180 mins)

/-! ## Data model -/

/-- A parsed phase record (`Phase` in `src/App.tsx`). -/
structure Phase where
  id : String
  title : String
  minutes : Int
  purpose : String
  learnerSteps : List String
  helperScript : String
deriving DecidableEq, Repr

/-- A parsed session record (`Template` in `src/App.tsx`).  The string-literal
union types of the source (`source`, `level`, `partner`, `category`) are
modelled as strings. -/
structure Template where
  id : String
  source : String
  title : String
  level : String
  partner : String
  goalCLB : Option String
  context : String
  correction : Option String
  category : String
  phases : List Phase
  twists : List String
deriving DecidableEq, Repr

/-- The runner state (`SessionState` in `src/App.tsx`). -/
structure SessionState where
  templateId : String
  phaseIndex : Nat
  remainingSeconds : Int
  isRunning : Bool
  showHelper : Bool
  banner : Option String
  completedPhaseIds : List String
deriving DecidableEq, Repr

/-! ## Runner state machine -/

/-- The `completedPhaseIds` update shared verbatim by the tick callback and
`skipToNext`: append the current phase's id if it is truthy and not yet
recorded. -/
def markPhaseDone (t : Template) (s : SessionState) : List String :=
  match t.phases.get? s.phaseIndex with
  | some ph =>
    if ph.id ≠ "" ∧ ph.id ∉ s.completedPhaseIds then
      s.completedPhaseIds ++ [ph.id]
    else s.completedPhaseIds
  | none => s.completedPhaseIds

/-- One invocation of the one-second `setInterval` callback of `Runner`
(`src/App.tsx`): a no-op unless running; otherwise decrement, and on hitting
zero either finish the session (last phase) or advance to the next phase,
autopaused either way.  The JavaScript `atEnd` test
`prev.phaseIndex >= t.phases.length - 1` is `length ≤ phaseIndex + 1`
over the integers. -/
def tick (t : Template) (s : SessionState) : SessionState :=
  if !s.isRunning then s
  else
    let next := s.remainingSeconds - 1
    if 0 < next then { s with remainingSeconds := next }
    else
      let done := markPhaseDone t s
      if hEnd : t.phases.length ≤ s.phaseIndex + 1 then
        { s with completedPhaseIds := done, remainingSeconds := 0,
                 isRunning := false, showHelper := false,
                 banner := some "Session complete" }
      else
        let nextPhase := t.phases.get ⟨s.phaseIndex + 1, by omega⟩
        { s with completedPhaseIds := done, phaseIndex := s.phaseIndex + 1,
                 remainingSeconds := clampMinutes nextPhase.minutes * 60,
                 isRunning := false, showHelper := false,
                 banner := some "Phase complete" }

/-- `toggleRun` from `Runner` (`src/App.tsx`): the Start/Pause button flips
`isRunning` and clears the banner; nothing else changes. -/
def toggleRun (s : SessionState) : SessionState :=
  { s with isRunning := !s.isRunning, banner := none }

/-- `skipToNext` from `Runner` (`src/App.tsx`): record the current phase as
done and move on (or finish), autopaused. -/
def skipToNext (t : Template) (s : SessionState) : SessionState :=
  let done := markPhaseDone t s
  if hEnd : t.phases.length ≤ s.phaseIndex + 1 then
    { s with completedPhaseIds := done, isRunning := false,
             remainingSeconds := 0, showHelper := false,
             banner := some "Session complete" }
  else
    let nextPhase := t.phases.get ⟨s.phaseIndex + 1, by omega⟩
    { s with completedPhaseIds := done, phaseIndex := s.phaseIndex + 1,
             remainingSeconds := clampMinutes nextPhase.minutes * 60,
             isRunning := false, showHelper := false,
             banner := some "Moved to next phase" }

/-- `startSessionFromTemplate` (state part) from `src/App.tsx`:
`remainingSeconds = clampMinutes(t.phases[0]?.minutes ?? 60) * 60`, paused. -/
def startSessionFromTemplate (t : Template) : SessionState :=
  { templateId := t.id, phaseIndex := 0,
    remainingSeconds := clampMinutes (((t.phases.get? 0).map Phase.minutes).getD 60) * 60,
    isRunning := false, showHelper := false, banner := none,
    completedPhaseIds := [] }

/-! ## Session selection -/

/-- The candidate list both pickers start from: the catalog filtered to the
target level, then by the category bias (`"Any"` keeps everything). -/
def levelCandidates (templates : List Template) (level bias : String) :
    List Template :=
  (templates.filter (fun t => t.level == level)).filter
    (fun t => bias == "Any" || t.category == bias)

/-- The `numeric` helper of `pickPathTemplate`: the regular expression
`/^[a-c][0-2][-_](\d+)/i` followed by `parseInt`; `none` models `NaN`. -/
def numericIdVal (id : String) : Option Int :=
  match id.data with
  | c1 :: c2 :: c3 :: rest =>
    if (decide ('a' ≤ c1.toLower) && decide (c1.toLower ≤ 'c')) &&
       (decide ('0' ≤ c2) && decide (c2 ≤ '2')) &&
       (c3 == '-' || c3 == '_') then
      let ds := rest.takeWhile Char.isDigit
      if ds = [] then none
      else some ((ds.foldl (fun a c => a * 10 + (c.toNat - 48)) 0 : Nat) : Int)
    else none
  | _ => none

/-- The sort comparator of `pickPathTemplate`: numeric id order when both
ids carry a numeric key, otherwise title order under the host's
`localeCompare`, supplied as `titleCmp`. -/
def pathCmp (titleCmp : String → String → Int) (a b : Template) : Int :=
  match numericIdVal a.id, numericIdVal b.id with
  | some na, some nb => na - nb
  | _, _ => titleCmp a.title b.title

/-- `[...list].sort(comparator)` of `pickPathTemplate`.  JavaScript's
`Array.prototype.sort` is stable; whenever the comparator is a consistent
total preorder every stable sort produces the same list, so it is modelled
by the stable `List.insertionSort` on the relation `comparator ≤ 0`. -/
def sortForPath (titleCmp : String → String → Int) (list : List Template) :
    List Template :=
  list.insertionSort (fun a b => pathCmp titleCmp a b ≤ 0)

/-- `pickPathTemplate` from `src/App.tsx`: first uncompleted candidate in
sorted order, falling back to the first candidate when all are completed.
`done id` models the truthiness of `completion.completedAtById[id]`. -/
def pickPathTemplate (templates : List Template) (level bias : String)
    (done : String → Bool) (titleCmp : String → String → Int) :
    Option Template :=
  let list := levelCandidates templates level bias
  if list.isEmpty then none
  else
    let sorted := sortForPath titleCmp list
    match sorted.find? (fun t => !done t.id) with
    | some t => some t
    | none => sorted.head?

/-- `pickRandomTemplate` from `src/App.tsx`.  `recents` is
`recents[level] ?? []`; `idx` models `Math.floor(Math.random() *
pickFrom.length)`, so the JavaScript `pickFrom[idx] ?? pickFrom[0] ?? null`
chain is kept verbatim. -/
def pickRandomTemplate (templates : List Template) (level bias : String)
    (recents : List String) (idx : Nat) : Option Template :=
  let list := levelCandidates templates level bias
  if list.isEmpty then none
  else
    let avoid := recents.take 6
    let pool := list.filter (fun t => !avoid.contains t.id)
    let pickFrom := if pool.isEmpty then list else pool
    match pickFrom.get? idx with
    | some t => some t
    | none => pickFrom.get? 0

/-! ## Parser: block extraction

`extractSessionBlocks` in `src/App.tsx` matches the regular expression
`/BEGIN PERFECT HOUR SESSION[\s\S]*?END PERFECT HOUR SESSION/gim` against the
raw text and trims each match.  With global, case-insensitive matching and a
lazy middle, this finds, repeatedly: the next occurrence of the BEGIN marker,
then the earliest following occurrence of the END marker, capturing the span
between them inclusive, and resumes after the match.  (The `m` flag is inert:
the pattern has no anchors.)  The fuel argument only drives structural
recursion; each captured match is non-empty, so `length + 1` steps always
reach the end of the text. -/

/-- The session block opening marker line text. -/
def beginMarker : String := "BEGIN PERFECT HOUR SESSION"

/-- The session block closing marker line text. -/
def endMarker : String := "END PERFECT HOUR SESSION"

/-- The repeated-match loop of `extractSessionBlocks` (see section header). -/
def extractLoop : Nat → List Char → List (List Char)
  | 0, _ => []
  | fuel + 1, s =>
    match findSub (lowerL beginMarker.data) (lowerL s) with
    | none => []
    | some i =>
      let afterBegin := s.drop (i + beginMarker.length)
      match findSub (lowerL endMarker.data) (lowerL afterBegin) with
      | none => []
      | some j =>
        let blockLen := beginMarker.length + j + endMarker.length
        (s.drop i).take blockLen :: extractLoop fuel (s.drop (i + blockLen))

/-- `extractSessionBlocks` from `src/App.tsx`. -/
def extractSessionBlocks (raw : String) : List String :=
  (extractLoop (raw.length + 1) raw.data).map (fun b => jsTrim ⟨b⟩)

/-! ## Parser: block preprocessing

`parseOneSessionBlock` first normalises the block text with a chain of
global regular-expression replacements; each is implemented below as a
left-to-right scan with JavaScript's leftmost, non-overlapping match
semantics.  All the fuel arguments only drive structural recursion: every
scan step consumes at least one input character, so `length + 1` steps
always reach the end of the text. -/

/-- Global case-insensitive replacement of a literal pattern
(`text.replace(/PATTERN/gi, repl)` for the BEGIN/END marker lines). -/
def replaceCI : Nat → List Char → List Char → List Char → List Char
  | 0, _, _, s => s
  | fuel + 1, pat, repl, s =>
    match s with
    | [] => []
    | c :: rest =>
      if (lowerL pat).isPrefixOf (lowerL (c :: rest)) then
        repl ++ replaceCI fuel pat repl (rest.drop (pat.length - 1))
      else c :: replaceCI fuel pat repl rest

/-- Scan for `text.replace(/\s*KEY/gi, "\nKEY")`: `pend` holds the run of
whitespace read since the last emitted non-whitespace character, which the
greedy `\s*` absorbs into a match when `KEY` follows (case-insensitively),
and which is flushed verbatim otherwise. -/
def repKeyAux : Nat → List Char → List Char → List Char → List Char
  | 0, _, pend, s => pend.reverse ++ s
  | fuel + 1, key, pend, s =>
    match s with
    | [] => pend.reverse
    | c :: rest =>
      if (lowerL key).isPrefixOf (lowerL (c :: rest)) then
        '\n' :: (key ++ repKeyAux fuel key [] (rest.drop (key.length - 1)))
      else if jsWs c then repKeyAux fuel key (c :: pend) rest
      else pend.reverse ++ c :: repKeyAux fuel key [] rest

/-- One pass of the key-normalisation loop of `parseOneSessionBlock`
(`text = text.replace(new RegExp("\\s*" + key, "gi"), "\n" + key)`). -/
def repKey (key : String) (s : List Char) : List Char :=
  repKeyAux (s.length + 1) key.data [] s

/-- Index of the last `'\n'` in a list, if any. -/
def lastNlIdx : List Char → Option Nat
  | [] => none
  | c :: rest =>
    match lastNlIdx rest with
    | some k => some (k + 1)
    | none => if c == '\n' then some 0 else none

/-- Scan for `text.replace(/\nMARKER:\s*\n/gi, "\nMARKER:\n")`: after a
newline followed (case-insensitively) by the marker, the greedy `\s*`
followed by `\n` matches up to the last newline of the maximal whitespace
run, which the replacement collapses to a single newline; if the run holds
no newline there is no match and the text is kept verbatim. -/
def collapseAux : Nat → List Char → List Char → List Char
  | 0, _, s => s
  | fuel + 1, marker, s =>
    match s with
    | [] => []
    | c :: rest =>
      if c == '\n' && (lowerL marker).isPrefixOf (lowerL rest) then
        let afterM := rest.drop marker.length
        let run := afterM.takeWhile jsWs
        match lastNlIdx run with
        | some k =>
          '\n' :: (marker ++ '\n' :: collapseAux fuel marker (afterM.drop (k + 1)))
        | none => c :: (rest.take marker.length ++ collapseAux fuel marker afterM)
      else c :: collapseAux fuel marker rest

/-- `text.replace(/\nMARKER\s*\n/gi, "\nMARKER\n")` for a literal marker. -/
def collapseAfter (marker : String) (s : List Char) : List Char :=
  collapseAux (s.length + 1) marker.data s

/-- Length of the maximal whitespace run at the head of the list. -/
def wsRunLen (l : List Char) : Nat := (l.takeWhile jsWs).length

/-- Length of the maximal decimal-digit run at the head of the list. -/
def digitRunLen (l : List Char) : Nat := (l.takeWhile Char.isDigit).length

/-- JavaScript's word-character class `\w` (for `\b` boundary tests). -/
def isWordChar (c : Char) : Bool :=
  (decide ('a' ≤ c) && decide (c ≤ 'z')) ||
  (decide ('A' ≤ c) && decide (c ≤ 'Z')) ||
  (decide ('0' ≤ c) && decide (c ≤ '9')) || c == '_'

/-- The `\b` test after a word: the next character must not be a word
character (or the input must end). -/
def wordBoundaryOk : List Char → Bool
  | [] => true
  | c :: _ => !isWordChar c

/-- The literal `PHASE`, lower-cased, for case-insensitive matching. -/
def phaseWord : List Char := ['p', 'h', 'a', 's', 'e']

/-- The written number alternatives of the phase-header pattern, in the
source's alternation order. -/
def numberWords : List (List Char) :=
  (["one", "two", "three", "four", "five", "six", "seven", "eight", "nine",
    "ten"].map String.data)

/-- Match length of `/(\n|\r|^)\s*PHASE\s+([0-9]+|one|…|ten)\b/i` at the
current position (`bos` marks absolute input start, where the `^`
alternative applies; without the `m` flag `^` matches nowhere else).
Since `PHASE` and the number start with non-whitespace, the greedy
backtracking collapses to: the run of whitespace, then `PHASE`, then a
non-empty run of whitespace, then the number, then a `\b` check. -/
def tryPhaseNum (bos : Bool) (s : List Char) : Option Nat :=
  let groupOk := bos || (match s with
    | c :: _ => c == '\n' || c == '\r'
    | [] => false)
  if !groupOk then none
  else
    let q := wsRunLen s
    if phaseWord.isPrefixOf (lowerL (s.drop q)) then
      let r := s.drop (q + 5)
      let w := wsRunLen r
      if w == 0 then none
      else
        let u := r.drop w
        let d := digitRunLen u
        if 0 < d then
          if wordBoundaryOk (u.drop d) then some (q + 5 + w + d) else none
        else
          match numberWords.find? (fun wd =>
              wd.isPrefixOf (lowerL u) && wordBoundaryOk (u.drop wd.length)) with
          | some wd => some (q + 5 + w + wd.length)
          | none => none
    else none

/-- The scan of
`text.replace(/(\n|\r|^)\s*PHASE\s+([0-9]+|one|…|ten)\b/gi, "\nPHASE")`. -/
def phaseNumScan : Nat → Bool → List Char → List Char
  | 0, _, s => s
  | fuel + 1, bos, s =>
    match s with
    | [] => []
    | c :: rest =>
      match tryPhaseNum bos (c :: rest) with
      | some n =>
        '\n' :: ('P' :: 'H' :: 'A' :: 'S' :: 'E' ::
          phaseNumScan fuel false ((c :: rest).drop n))
      | none => c :: phaseNumScan fuel false rest

/-- Match length of `/(\n|\r|^)\s*PHASE\s*:/i` at the current position
(same conventions as `tryPhaseNum`). -/
def tryPhaseColon (bos : Bool) (s : List Char) : Option Nat :=
  let groupOk := bos || (match s with
    | c :: _ => c == '\n' || c == '\r'
    | [] => false)
  if !groupOk then none
  else
    let q := wsRunLen s
    if phaseWord.isPrefixOf (lowerL (s.drop q)) then
      let r := s.drop (q + 5)
      let w := wsRunLen r
      match r.drop w with
      | ':' :: _ => some (q + 5 + w + 1)
      | _ => none
    else none

/-- The scan of `text.replace(/(\n|\r|^)\s*PHASE\s*:/gi, "\nPHASE")`. -/
def phaseColonScan : Nat → Bool → List Char → List Char
  | 0, _, s => s
  | fuel + 1, bos, s =>
    match s with
    | [] => []
    | c :: rest =>
      match tryPhaseColon bos (c :: rest) with
      | some n =>
        '\n' :: ('P' :: 'H' :: 'A' :: 'S' :: 'E' ::
          phaseColonScan fuel false ((c :: rest).drop n))
      | none => c :: phaseColonScan fuel false rest

/-- The recognised keys of `parseOneSessionBlock`, in the source's order. -/
def parserKeys : List String :=
  ["ID:", "Title:", "Level:", "Partner:", "Goal (CLB):", "Context:",
   "Correction:", "Category:", "PHASE", "Name:", "Minutes:", "Purpose:",
   "Human steps:", "AI helper script:", "Twists:"]

/-- `runReplaceCI pat repl s`: one global case-insensitive literal
replacement pass over `s`. -/
def runReplaceCI (pat repl : String) (s : List Char) : List Char :=
  replaceCI (s.length + 1) pat.data repl.data s

/-- The whole preprocessing chain at the top of `parseOneSessionBlock`, in
source order: put the BEGIN/END markers on their own lines, break every
recognised key onto a new line, normalise the whitespace after
`Human steps:` and `AI helper script:`, and collapse the two phase-header
shapes to lines starting with `PHASE`. -/
def preprocessBlock (block : String) : List Char :=
  let t1 := runReplaceCI beginMarker ("\n" ++ beginMarker ++ "\n") block.data
  let t2 := runReplaceCI endMarker ("\n" ++ endMarker ++ "\n") t1
  let t3 := parserKeys.foldl (fun acc k => repKey k acc) t2
  let t4 := collapseAfter "Human steps:" t3
  let t5 := collapseAfter "AI helper script:" t4
  let t6 := phaseNumScan (t5.length + 1) true t5
  phaseColonScan (t6.length + 1) true t6

/-! ## Parser: line loop -/

/-- `text.split("\n")`. -/
def splitNl : List Char → List (List Char)
  | [] => [[]]
  | c :: rest =>
    let r := splitNl rest
    if c == '\n' then [] :: r
    else
      match r with
      | h :: t => (c :: h) :: t
      | [] => [[c]]

/-- `normalizeLine` from `src/App.tsx`: strip every `'\r'`, then trim. -/
def normalizeLine (l : List Char) : String :=
  jsTrim ⟨l.filter (fun c => c != '\r')⟩

/-- The normalised, non-empty, non-marker line list the parsing loop of
`parseOneSessionBlock` walks. -/
def blockLines (block : String) : List String :=
  ((splitNl (preprocessBlock block)).map normalizeLine).filter
    (fun x => x != "" && x != beginMarker && x != endMarker)

/-- `line.slice(n).trim()`. -/
def sliceFrom (l : String) (n : Nat) : String := jsTrim (strDrop l n)

/-- `line.replace(/^\*\s*/, "")`: strip one leading bullet star and the
whitespace after it. -/
def stripBullet (s : String) : String :=
  match s.data with
  | '*' :: rest => ⟨rest.dropWhile jsWs⟩
  | _ => s

/-- The lines that terminate a `Human steps:` sub-block. -/
def stepsBoundary (l : String) : Bool :=
  lowStarts l "ai helper script:" || upStarts l "PHASE" || lowStarts l "twists:"

/-- The `Human steps:` sub-loop: collect cleaned, non-empty lines (bulleted
or plain) until a boundary line, returning the steps and the rest. -/
def stepsLoop : List String → List String × List String
  | [] => ([], [])
  | l :: rest =>
    if stepsBoundary l then ([], l :: rest)
    else
      let res := stepsLoop rest
      let cleaned := jsTrim (stripBullet l)
      (if cleaned ≠ "" then cleaned :: res.1 else res.1, res.2)

/-- The lines that terminate an `AI helper script:` capture. -/
def helperBoundary (l : String) : Bool :=
  upStarts l "PHASE" || lowStarts l "twists:" ||
  lowStarts l "name:" || lowStarts l "minutes:" || lowStarts l "purpose:" ||
  lowStarts l "human steps:" || lowStarts l "ai helper script:"

/-- The `AI helper script:` sub-loop: accumulate raw lines until a boundary
line, returning the parts and the rest. -/
def helperLoop : List String → List String × List String
  | [] => ([], [])
  | l :: rest =>
    if helperBoundary l then ([], l :: rest)
    else
      let res := helperLoop rest
      (l :: res.1, res.2)

/-- The `Twists:` sub-loop: collect cleaned, non-empty lines until the next
`PHASE` header, returning the twists and the rest. -/
def twistsLoop : List String → List String × List String
  | [] => ([], [])
  | l :: rest =>
    if upStarts l "PHASE" then ([], l :: rest)
    else
      let res := twistsLoop rest
      let cleaned := jsTrim (stripBullet l)
      (if cleaned ≠ "" then cleaned :: res.1 else res.1, res.2)

/-- Accumulator of one phase body inside `parseOneSessionBlock`:
`phTitle`, `minutes`, `purpose`, `learnerSteps`, `helperScript`. -/
structure PhaseAcc where
  phTitle : String := ""
  minutes : Int := 0
  purpose : String := ""
  steps : List String := []
  helper : String := ""
deriving DecidableEq, Repr

/-- The inner while-loop of a `PHASE` block: read sub-fields until the next
`PHASE`/`Twists:` line.  The fuel only drives structural recursion: every
iteration consumes at least the current line (the sub-loops only shorten
the rest), so `length + 1` steps always reach the loop exit. -/
def phaseLoop : Nat → PhaseAcc → List String → PhaseAcc × List String
  | 0, a, ls => (a, ls)
  | fuel + 1, a, ls =>
    match ls with
    | [] => (a, [])
    | l :: rest =>
    if upStarts l "PHASE" || lowStarts l "twists:" then (a, l :: rest)
    else if lowStarts l "name:" then
      phaseLoop fuel { a with phTitle := sliceFrom l 5 } rest
    else if lowStarts l "minutes:" then
      phaseLoop fuel { a with minutes := (jsParseInt (sliceFrom l 8)).getD 0 } rest
    else if lowStarts l "purpose:" then
      phaseLoop fuel { a with purpose := sliceFrom l 8 } rest
    else if lowStarts l "human steps:" then
      let res := stepsLoop rest
      phaseLoop fuel { a with steps := a.steps ++ res.1 } res.2
    else if lowStarts l "ai helper script:" then
      let first := sliceFrom l 17
      let res := helperLoop rest
      let parts := if first ≠ "" then first :: res.1 else res.1
      phaseLoop fuel { a with helper := jsTrim (joinSep " " parts) } res.2
    else phaseLoop fuel a rest

/-- Accumulator of the top-level field loop of `parseOneSessionBlock`. -/
structure BlockAcc where
  idLine : String := ""
  title : String := ""
  levelText : String := ""
  partnerText : String := ""
  goal : String := ""
  context : String := ""
  correction : String := ""
  category : String := ""
  phases : List Phase := []
  twists : List String := []
deriving DecidableEq, Repr

/-- The top-level while-loop of `parseOneSessionBlock`: recognise the
session fields, phase blocks and twists, in the source's branch order.
The fuel only drives structural recursion (see `phaseLoop`). -/
def mainLoop : Nat → BlockAcc → List String → BlockAcc
  | 0, acc, _ => acc
  | fuel + 1, acc, ls =>
    match ls with
    | [] => acc
    | l :: rest =>
    if lowStarts l "id:" then
      mainLoop fuel { acc with idLine := sliceFrom l 3 } rest
    else if lowStarts l "title:" then
      mainLoop fuel { acc with title := sliceFrom l 6 } rest
    else if lowStarts l "level:" then
      mainLoop fuel { acc with levelText := sliceFrom l 6 } rest
    else if lowStarts l "partner:" then
      mainLoop fuel { acc with partnerText := sliceFrom l 8 } rest
    else if lowStarts l "goal (clb):" then
      mainLoop fuel { acc with goal := sliceFrom l 11 } rest
    else if lowStarts l "context:" then
      mainLoop fuel { acc with context := sliceFrom l 8 } rest
    else if lowStarts l "correction:" then
      mainLoop fuel { acc with correction := sliceFrom l 11 } rest
    else if lowStarts l "category:" then
      mainLoop fuel { acc with category := sliceFrom l 9 } rest
    else if upStarts l "PHASE" then
      let res := phaseLoop (rest.length + 1) {} rest
      let pa := res.1
      let phId := stableId [acc.title, acc.levelText, pa.phTitle, intStr pa.minutes]
      let ph : Phase :=
        { id := phId,
          title := if pa.phTitle ≠ "" then pa.phTitle
                   else "Phase " ++ natStr (acc.phases.length + 1),
          minutes := clampMinutes pa.minutes,
          purpose := pa.purpose,
          learnerSteps := pa.steps,
          helperScript := pa.helper }
      mainLoop fuel { acc with phases := acc.phases ++ [ph] } res.2
    else if lowStarts l "twists:" then
      let res := twistsLoop rest
      mainLoop fuel { acc with twists := acc.twists ++ res.1 } res.2
    else mainLoop fuel acc rest

/-- All fields and phases parsed from one block, before the validity gate. -/
def parseSessionAcc (block : String) : BlockAcc :=
  let lines := blockLines block
  mainLoop (lines.length + 1) {} lines

/-- The six canonical CEFR level codes (`CEFR_LEVELS`). -/
def CEFR_LEVELS : List String := ["A1", "A2", "B1", "B2", "C1", "C2"]

/-- `tryExtractCEFR`: first canonical code contained in the upper-cased
level text, else the fallback. -/
def tryExtractCEFR (levelText fallback : String) : String :=
  match CEFR_LEVELS.find? (fun l => containsSub (upperStr levelText) l) with
  | some l => l
  | none => fallback

/-- The `CATEGORY_OPTIONS` array of `src/App.tsx` (including `"Any"`,
against which the parser's `includes` membership test runs). -/
def CATEGORY_OPTIONS : List String :=
  ["Any", "Daily life", "Travel", "Work", "Services", "Social", "Family",
   "Health", "Education", "Food", "Shopping", "Housing", "Transportation",
   "Government", "Faith", "Culture", "Technology", "Politeness",
   "Problem-solving", "Money", "Phone", "Ministry", "Relationships",
   "Admin", "Emergency"]

/-- `inferCategoryFromContext` from `src/App.tsx`.  The `Emergency` branch
of the source reads `return "Emergency" | "Politeness" | … | "Admin"`,
which in JavaScript is bitwise-or on strings and evaluates to the number
`0`; it is represented here by the string `"0"`, which is distinct from
every category name and from `""`, so every later comparison
(`===` against a category, `includes` in `CATEGORY_OPTIONS`) behaves
identically. -/
def inferCategoryFromContext (text : String) : String :=
  let s := lowerStr text
  if containsSub s "doctor" || containsSub s "medicine" || containsSub s "clinic" || containsSub s "pain" then "Health"
  else if containsSub s "school" || containsSub s "class" || containsSub s "teacher" || containsSub s "homework" then "Education"
  else if containsSub s "restaurant" || containsSub s "coffee" || containsSub s "menu" || containsSub s "eat" || containsSub s "drink" then "Food"
  else if containsSub s "hotel" || containsSub s "airport" || containsSub s "ticket" || containsSub s "directions" || containsSub s "bus" || containsSub s "train" then "Travel"
  else if containsSub s "rent" || containsSub s "apartment" || containsSub s "house" || containsSub s "landlord" then "Housing"
  else if containsSub s "shopping" || containsSub s "store" || containsSub s "price" || containsSub s "buy" then "Shopping"
  else if containsSub s "job" || containsSub s "boss" || containsSub s "meeting" || containsSub s "deadline" then "Work"
  else if containsSub s "police" || containsSub s "visa" || containsSub s "office" || containsSub s "documents" then "Government"
  else if containsSub s "church" || containsSub s "prayer" || containsSub s "bible" || containsSub s "mosque" then "Faith"
  else if containsSub s "phone" || containsSub s "app" || containsSub s "wifi" || containsSub s "computer" then "Technology"
  else if containsSub s "help" || containsSub s "emergency" || containsSub s "fire" || containsSub s "hurt" || containsSub s "lost" then "0"
  else if containsSub s "family" || containsSub s "child" || containsSub s "parents" || containsSub s "wife" || containsSub s "husband" then "Family"
  else if containsSub s "bank" || containsSub s "post" || containsSub s "service" || containsSub s "counter" then "Services"
  else if containsSub s "party" || containsSub s "friend" || containsSub s "meet" || containsSub s "invite" then "Social"
  else if containsSub s "bus" || containsSub s "car" || containsSub s "ride" || containsSub s "traffic" then "Transportation"
  else "Daily life"

/-- `parseOneSessionBlock` from `src/App.tsx`: preprocess, walk the lines,
apply the validity gate (`!title || !context || phases.length === 0`), and
assemble the `Template`. -/
def parseOneSessionBlock (block fallbackLevel source : String) :
    Option Template :=
  let acc := parseSessionAcc block
  if acc.title = "" ∨ acc.context = "" ∨ acc.phases = [] then none
  else
    let level := tryExtractCEFR acc.levelText fallbackLevel
    let partnerLower := lowerStr acc.partnerText
    let partner :=
      if containsSub partnerLower "either" || containsSub partnerLower "human or ai" then "either"
      else if containsSub partnerLower "ai" then "ai"
      else "human"
    let cat :=
      if acc.category ≠ "" ∧ acc.category ∈ CATEGORY_OPTIONS then acc.category
      else inferCategoryFromContext (acc.title ++ "\n" ++ acc.context)
    let explicitId := jsTrim acc.idLine
    let sid := if explicitId ≠ "" then lowerStr explicitId
               else lowerStr (stableId [source, level, acc.title, acc.context])
    some
      { id := sid, source := source, title := acc.title, level := level,
        partner := partner,
        goalCLB := if acc.goal ≠ "" then some acc.goal else none,
        context := acc.context,
        correction := if acc.correction ≠ "" then some acc.correction else none,
        category := cat, phases := acc.phases, twists := acc.twists }

/-- `parsePerfectHourText` from `src/App.tsx`: extract the blocks and keep
every block the gate accepts. -/
def parsePerfectHourText (raw fallbackLevel source : String) : List Template :=
  (extractSessionBlocks raw).filterMap
    (fun b => parseOneSessionBlock b fallbackLevel source)

/-! ## Concrete inputs used by the claim witnesses and counterexamples -/

/-- A two-phase template (one minute, then two minutes) for runner claims. -/
def rTmpl : Template :=
  { id := "a2-0001", source := "file", title := "Order coffee", level := "A2",
    partner := "human", goalCLB := none, context := "cafe",
    correction := none, category := "Food",
    phases := [⟨"p1", "p1", 1, "", [], ""⟩, ⟨"p2", "p2", 2, "", [], ""⟩],
    twists := [] }

/-- A running state at phase 0 of `rTmpl` with 60 seconds left. -/
def rRun : SessionState :=
  { templateId := "a2-0001", phaseIndex := 0, remainingSeconds := 60,
    isRunning := true, showHelper := false, banner := none,
    completedPhaseIds := [] }

/-- A paused state (the shape `toggleRun` produces after a pause). -/
def rPaused : SessionState :=
  { templateId := "a2-0001", phaseIndex := 0, remainingSeconds := 37,
    isRunning := false, showHelper := false, banner := none,
    completedPhaseIds := [] }

/-- A block with a non-empty title and one parsed phase but no `Context:`
line. -/
def c1Block : String :=
  "BEGIN PERFECT HOUR SESSION\nTitle: t\nLevel: A2\nPHASE 1\nMinutes: 5\nEND PERFECT HOUR SESSION"

/-- A block whose two phases carry `Minutes: 0` and `Minutes: 120`. -/
def c3Block : String :=
  "BEGIN PERFECT HOUR SESSION\nTitle: t\nContext: c\nPHASE 1\nMinutes: 0\nPHASE 2\nMinutes: 120\nEND PERFECT HOUR SESSION"

/-- A well-formed block with a 7-minute phase. -/
def c3WBlock : String :=
  "BEGIN PERFECT HOUR SESSION\nTitle: t\nContext: c\nPHASE 1\nMinutes: 7\nEND PERFECT HOUR SESSION"

/-- The phase `c3WBlock` parses to. -/
def c3WPhase : Phase := ⟨"ph_24a0743c", "Phase 1", 7, "", [], ""⟩

/-- The template `c3WBlock` parses to. -/
def c3WTmpl : Template :=
  { id := "ph_32702e70", source := "file", title := "t", level := "A1",
    partner := "human", goalCLB := none, context := "c", correction := none,
    category := "Daily life", phases := [c3WPhase], twists := [] }

/-- A well-formed block without an `ID:` field (level A2, context `c`). -/
def c4Fmt : String :=
  "BEGIN PERFECT HOUR SESSION\nTitle: t\nLevel: A2\nContext: c\nPHASE 1\nMinutes: 5\nEND PERFECT HOUR SESSION"

/-- Like `c4Fmt` but with context `kbjaafkai`. -/
def c4CtxA : String :=
  "BEGIN PERFECT HOUR SESSION\nTitle: t\nLevel: A2\nContext: kbjaafkai\nPHASE 1\nMinutes: 5\nEND PERFECT HOUR SESSION"

/-- Like `c4Fmt` but with context `eeikecggf`, whose canonical key has the
same 32-bit FNV-1a hash as that of `c4CtxA`. -/
def c4CtxB : String :=
  "BEGIN PERFECT HOUR SESSION\nTitle: t\nLevel: A2\nContext: eeikecggf\nPHASE 1\nMinutes: 5\nEND PERFECT HOUR SESSION"

/-- A block carrying an explicit `ID: ABC-7` field. -/
def c4IdBlock : String :=
  "BEGIN PERFECT HOUR SESSION\nID: ABC-7\nTitle: t\nLevel: A2\nContext: c\nPHASE 1\nMinutes: 5\nEND PERFECT HOUR SESSION"

/-- The template `c4IdBlock` parses to. -/
def c4IdTmpl : Template :=
  { id := "abc-7", source := "file", title := "t", level := "A2",
    partner := "human", goalCLB := none, context := "c", correction := none,
    category := "Daily life",
    phases := [⟨"ph_c550495b", "Phase 1", 5, "", [], ""⟩], twists := [] }

/-- Session text whose markers are lower case (so no line equals the
literal marker lines), with a parseable body. -/
def c5Raw : String :=
  "begin perfect hour session\nTitle: t\nContext: c\nphase 1\nend perfect hour session"

/-- Text with marker occurrences embedded mid-line. -/
def c5wRaw : String :=
  "xx BEGIN PERFECT HOUR SESSION yy END PERFECT HOUR SESSION zz"

/-- The single span `extractLoop` captures from `c5wRaw`. -/
def c5wBlock : String :=
  "BEGIN PERFECT HOUR SESSION yy END PERFECT HOUR SESSION"

/-- Library text with outside commentary, one valid session block and one
invalid (context-less) block. -/
def c9Raw : String :=
  "notes outside\nBEGIN PERFECT HOUR SESSION\nTitle: Order coffee\nLevel: A2\nContext: cafe\nPHASE 1\nName: Fluency loop\nMinutes: 10\nHuman steps:\n* Say hello\nEND PERFECT HOUR SESSION\nmore notes\nBEGIN PERFECT HOUR SESSION\nTitle: broken\nPHASE 1\nMinutes: 5\nEND PERFECT HOUR SESSION\ntail"

/-- The one template `c9Raw` parses to. -/
def c9Tmpl : Template :=
  { id := "ph_589d5a5d", source := "file", title := "Order coffee",
    level := "A2", partner := "human", goalCLB := none, context := "cafe",
    correction := none, category := "Food",
    phases := [⟨"ph_e913148b", "Fluency loop", 10, "", ["Say hello"], ""⟩],
    twists := [] }

/-- A minimal catalog template at level A2 with the given id, for the
selection-strategy witnesses. -/
def selMk (i : String) : Template :=
  { id := i, source := "file", title := i, level := "A2", partner := "human",
    goalCLB := none, context := "c", correction := none, category := "Food",
    phases := [], twists := [] }

/-- A seven-session A2 catalog. -/
def c6Cat : List Template :=
  [selMk "i1", selMk "i2", selMk "i3", selMk "i4", selMk "i5", selMk "i6",
   selMk "i7"]

/-- A recency list holding the six most recently shown ids. -/
def c6Rec : List String := ["i1", "i2", "i3", "i4", "i5", "i6"]

/-- Path-mode witness sessions: numeric ids `a2-0001` and `a2-0002`. -/
def c7T1 : Template := selMk "a2-0001"

/-- Second path-mode witness session. -/
def c7T2 : Template := selMk "a2-0002"

/-- Completion map marking `a2-0001` (only) as complete. -/
def c7Done : String → Bool := fun i => i == "a2-0001"

/-- A constant stand-in for the host's `localeCompare`. -/
def c7Cmp : String → String → Int := fun _ _ => 0

/-- A running state: phase `p` with `r` seconds remaining (the other fields
arbitrary). -/
def runningAt (tid : String) (p : Nat) (r : Int) (sh : Bool)
    (bn : Option String) (cp : List String) : SessionState :=
  { templateId := tid, phaseIndex := p, remainingSeconds := r,
    isRunning := true, showHelper := sh, banner := bn,
    completedPhaseIds := cp }

/-! ## Shared facts about the tick transition -/

/-- A tick on a non-running state is a no-op. -/
theorem tick_of_paused (t : Template) (s : SessionState)
    (h : s.isRunning = false) : tick t s = s := by
  simp [tick, h]

/-- A tick on a running state with more than one second left only
decrements the countdown. -/
theorem tick_of_running_gt (t : Template) (s : SessionState)
    (hrun : s.isRunning = true) (hgt : 1 < s.remainingSeconds) :
    tick t s = { s with remainingSeconds := s.remainingSeconds - 1 } := by
  have h0 : 0 < s.remainingSeconds - 1 := by omega
  simp [tick, hrun, h0]

/-- A tick on a running state whose countdown expires on the last phase:
session complete, timer stopped. -/
theorem tick_of_running_end (t : Template) (s : SessionState)
    (hrun : s.isRunning = true) (hle : s.remainingSeconds ≤ 1)
    (hEnd : t.phases.length ≤ s.phaseIndex + 1) :
    tick t s = { s with completedPhaseIds := markPhaseDone t s,
                        remainingSeconds := 0, isRunning := false,
                        showHelper := false,
                        banner := some "Session complete" } := by
  have h0 : ¬ (0 < s.remainingSeconds - 1) := by omega
  simp only [tick, hrun, Bool.not_true, Bool.false_eq_true, if_false, h0]
  rw [dif_pos hEnd]

/-- A tick on a running state whose countdown expires before the last
phase: advance to the next phase with its full clamped duration, paused. -/
theorem tick_of_running_mid (t : Template) (s : SessionState)
    (hrun : s.isRunning = true) (hle : s.remainingSeconds ≤ 1)
    (hlt : s.phaseIndex + 1 < t.phases.length) :
    tick t s = { s with completedPhaseIds := markPhaseDone t s,
                        phaseIndex := s.phaseIndex + 1,
                        remainingSeconds :=
                          clampMinutes (t.phases.get ⟨s.phaseIndex + 1, hlt⟩).minutes * 60,
                        isRunning := false, showHelper := false,
                        banner := some "Phase complete" } := by
  have h0 : ¬ (0 < s.remainingSeconds - 1) := by omega
  have hEnd : ¬ (t.phases.length ≤ s.phaseIndex + 1) := by omega
  simp only [tick, hrun, Bool.not_true, Bool.false_eq_true, if_false, h0]
  rw [dif_neg hEnd]

/-- A tick never makes the countdown negative. -/
theorem tick_nonneg (t : Template) (s : SessionState)
    (h : 0 ≤ s.remainingSeconds) : 0 ≤ (tick t s).remainingSeconds := by
  by_cases hrun : s.isRunning = true
  · rcases lt_or_le 1 s.remainingSeconds with hgt | hle
    · rw [tick_of_running_gt t s hrun hgt]
      simp
      omega
    · rcases lt_or_le (s.phaseIndex + 1) t.phases.length with hlt | hEnd
      · rw [tick_of_running_mid t s hrun hle hlt]
        have := le_max_left (0 : Int)
          (min 180 (t.phases.get ⟨s.phaseIndex + 1, hlt⟩).minutes)
        simp only [clampMinutes]
        positivity
      · rw [tick_of_running_end t s hrun hle hEnd]
  · rw [tick_of_paused t s (by simpa using hrun)]
    exact h

/-- After a tick that expires a running countdown, the machine is paused. -/
theorem tick_expired_not_running (t : Template) (s : SessionState)
    (hrun : s.isRunning = true) (hle : s.remainingSeconds ≤ 1) :
    (tick t s).isRunning = false := by
  rcases lt_or_le (s.phaseIndex + 1) t.phases.length with hlt | hEnd
  · rw [tick_of_running_mid t s hrun hle hlt]
  · rw [tick_of_running_end t s hrun hle hEnd]

/-! ## Shared facts about the parser -/

/-- Each kept element of a `filterMap` corresponds to exactly one input the
function accepts. -/
theorem length_filterMap_eq {α β : Type} (f : α → Option β) (l : List α) :
    (l.filterMap f).length = (l.filter (fun a => (f a).isSome)).length := by
  induction l with
  | nil => rfl
  | cons a l ih =>
    cases h : f a <;> simp [List.filterMap_cons, h, List.filter_cons, ih]

/-- `clampMinutes` always lands in `[0, 180]`. -/
theorem clampMinutes_bounds (m : Int) :
    0 ≤ clampMinutes m ∧ clampMinutes m ≤ 180 := by
  unfold clampMinutes
  constructor
  · exact le_max_left 0 _
  · exact max_le (by norm_num) (min_le_left _ _)

/-- Every phase the field loop accumulates has clamped minutes. -/
theorem mainLoop_minutes_bounds :
    ∀ (fuel : Nat) (acc : BlockAcc) (ls : List String),
    (∀ ph ∈ acc.phases, 0 ≤ ph.minutes ∧ ph.minutes ≤ 180) →
    ∀ ph ∈ (mainLoop fuel acc ls).phases, 0 ≤ ph.minutes ∧ ph.minutes ≤ 180 := by
  intro fuel acc ls
  induction fuel, acc, ls using mainLoop.induct with
  | case1 acc ls => exact fun hacc => hacc
  | case2 fuel acc => exact fun hacc => hacc
  | case3 fuel acc l rest h1 ih =>
    intro hacc
    simp only [mainLoop, h1, if_true]
    exact ih hacc
  | case4 fuel acc l rest h1 h2 ih =>
    intro hacc
    simp only [mainLoop, h1, h2, if_true]
    exact ih hacc
  | case5 fuel acc l rest h1 h2 h3 ih =>
    intro hacc
    simp only [mainLoop, h1, h2, h3, if_true]
    exact ih hacc
  | case6 fuel acc l rest h1 h2 h3 h4 ih =>
    intro hacc
    simp only [mainLoop, h1, h2, h3, h4, if_true]
    exact ih hacc
  | case7 fuel acc l rest h1 h2 h3 h4 h5 ih =>
    intro hacc
    simp only [mainLoop, h1, h2, h3, h4, h5, if_true]
    exact ih hacc
  | case8 fuel acc l rest h1 h2 h3 h4 h5 h6 ih =>
    intro hacc
    simp only [mainLoop, h1, h2, h3, h4, h5, h6, if_true]
    exact ih hacc
  | case9 fuel acc l rest h1 h2 h3 h4 h5 h6 h7 ih =>
    intro hacc
    simp only [mainLoop, h1, h2, h3, h4, h5, h6, h7, if_true]
    exact ih hacc
  | case10 fuel acc l rest h1 h2 h3 h4 h5 h6 h7 h8 ih =>
    intro hacc
    simp only [mainLoop, h1, h2, h3, h4, h5, h6, h7, h8, if_true]
    exact ih hacc
  | case11 fuel acc l rest h1 h2 h3 h4 h5 h6 h7 h8 h9 res pa phId ph ih =>
    intro hacc
    simp only [mainLoop, h1, h2, h3, h4, h5, h6, h7, h8, h9, if_true]
    refine ih ?_
    intro ph hph
    rcases List.mem_append.mp hph with hold | hnew
    · exact hacc ph hold
    · have hph2 := List.mem_singleton.mp hnew
      subst hph2
      exact clampMinutes_bounds _
  | case12 fuel acc l rest h1 h2 h3 h4 h5 h6 h7 h8 h9 h10 res ih =>
    intro hacc
    simp only [mainLoop, h1, h2, h3, h4, h5, h6, h7, h8, h9, h10, if_true]
    exact ih hacc
  | case13 fuel acc l rest h1 h2 h3 h4 h5 h6 h7 h8 h9 h10 ih =>
    intro hacc
    simp only [mainLoop, h1, h2, h3, h4, h5, h6, h7, h8, h9, h10]
    exact ih hacc

/-- A template produced by `parseOneSessionBlock` passed the validity
gate: non-empty title, non-empty context, at least one phase. -/
theorem parseOne_some_valid (block fb src : String) (t : Template)
    (hp : parseOneSessionBlock block fb src = some t) :
    t.title ≠ "" ∧ t.context ≠ "" ∧ t.phases ≠ [] := by
  simp only [parseOneSessionBlock] at hp
  split at hp
  · cases hp
  · next h =>
    push_neg at h
    injection hp with h2
    subst h2
    exact ⟨h.1, h.2.1, h.2.2⟩

/-- The `Human steps:` sub-loop never lengthens the remaining line list. -/
theorem stepsLoop_rest_le (ls : List String) :
    (stepsLoop ls).2.length ≤ ls.length := by
  induction ls with
  | nil => simp [stepsLoop]
  | cons l rest ih =>
    by_cases h : stepsBoundary l
    · simp [stepsLoop, h]
    · simp only [stepsLoop, h, Bool.false_eq_true, if_false, List.length_cons]
      omega

/-- The `AI helper script:` sub-loop never lengthens the remaining line
list. -/
theorem helperLoop_rest_le (ls : List String) :
    (helperLoop ls).2.length ≤ ls.length := by
  induction ls with
  | nil => simp [helperLoop]
  | cons l rest ih =>
    by_cases h : helperBoundary l
    · simp [helperLoop, h]
    · simp only [helperLoop, h, Bool.false_eq_true, if_false, List.length_cons]
      omega

/-- The `Twists:` sub-loop never lengthens the remaining line list. -/
theorem twistsLoop_rest_le (ls : List String) :
    (twistsLoop ls).2.length ≤ ls.length := by
  induction ls with
  | nil => simp [twistsLoop]
  | cons l rest ih =>
    by_cases h : upStarts l "PHASE"
    · simp [twistsLoop, h]
    · simp only [twistsLoop, h, Bool.false_eq_true, if_false, List.length_cons]
      omega

/-- The phase-body loop never lengthens the remaining line list. -/
theorem phaseLoop_rest_le : ∀ (f : Nat) (a : PhaseAcc) (ls : List String),
    (phaseLoop f a ls).2.length ≤ ls.length := by
  intro f a ls
  induction f, a, ls using phaseLoop.induct with
  | case1 a ls => simp [phaseLoop]
  | case2 fuel a => simp [phaseLoop]
  | case3 fuel a l rest h1 => simp [phaseLoop, h1]
  | case4 fuel a l rest h1 h2 ih =>
    simp only [phaseLoop, h1, h2, Bool.false_eq_true, if_false, if_true,
      List.length_cons]
    omega
  | case5 fuel a l rest h1 h2 h3 ih =>
    simp only [phaseLoop, h1, h2, h3, Bool.false_eq_true, if_false, if_true,
      List.length_cons]
    omega
  | case6 fuel a l rest h1 h2 h3 h4 ih =>
    simp only [phaseLoop, h1, h2, h3, h4, Bool.false_eq_true, if_false,
      if_true, List.length_cons]
    omega
  | case7 fuel a l rest h1 h2 h3 h4 h5 res ih =>
    have hres : res = stepsLoop rest := rfl
    simp only [phaseLoop, h1, h2, h3, h4, h5, Bool.false_eq_true, if_false,
      if_true, List.length_cons]
    rw [← hres]
    have hle := stepsLoop_rest_le rest
    rw [← hres] at hle
    omega
  | case8 fuel a l rest h1 h2 h3 h4 h5 h6 first res parts ih =>
    have hres : res = helperLoop rest := rfl
    have hfirst : first = sliceFrom l 17 := rfl
    have hparts : parts = if first ≠ "" then first :: res.1 else res.1 := rfl
    simp only [phaseLoop, h1, h2, h3, h4, h5, h6, Bool.false_eq_true,
      if_false, if_true, List.length_cons]
    rw [← hres, ← hfirst, ← hparts]
    have hle := helperLoop_rest_le rest
    rw [← hres] at hle
    omega
  | case9 fuel a l rest h1 h2 h3 h4 h5 h6 ih =>
    simp only [phaseLoop, h1, h2, h3, h4, h5, h6, Bool.false_eq_true,
      if_false, List.length_cons]
    omega

/-- The field loop computes the same result under any sufficient iteration
bound: the modelled `while` loop exits on its own before either bound is
reached, so the fuel is immaterial — the termination fact behind the
parser's totality. -/
theorem mainLoop_congr : ∀ (f : Nat) (acc : BlockAcc) (ls : List String),
    ∀ g : Nat, ls.length < f → ls.length < g →
    mainLoop f acc ls = mainLoop g acc ls := by
  intro f acc ls
  induction f, acc, ls using mainLoop.induct with
  | case1 acc ls => intro g hf hg; omega
  | case2 fuel acc =>
    intro g hf hg
    cases g with
    | zero => omega
    | succ g => rfl
  | case3 fuel acc l rest h1 ih =>
    intro g hf hg
    cases g with
    | zero => omega
    | succ g =>
      simp only [List.length_cons] at hf hg
      simp only [mainLoop, h1, if_true]
      exact ih g (by omega) (by omega)
  | case4 fuel acc l rest h1 h2 ih =>
    intro g hf hg
    cases g with
    | zero => omega
    | succ g =>
      simp only [List.length_cons] at hf hg
      simp only [mainLoop, h1, h2, if_true]
      exact ih g (by omega) (by omega)
  | case5 fuel acc l rest h1 h2 h3 ih =>
    intro g hf hg
    cases g with
    | zero => omega
    | succ g =>
      simp only [List.length_cons] at hf hg
      simp only [mainLoop, h1, h2, h3, if_true]
      exact ih g (by omega) (by omega)
  | case6 fuel acc l rest h1 h2 h3 h4 ih =>
    intro g hf hg
    cases g with
    | zero => omega
    | succ g =>
      simp only [List.length_cons] at hf hg
      simp only [mainLoop, h1, h2, h3, h4, if_true]
      exact ih g (by omega) (by omega)
  | case7 fuel acc l rest h1 h2 h3 h4 h5 ih =>
    intro g hf hg
    cases g with
    | zero => omega
    | succ g =>
      simp only [List.length_cons] at hf hg
      simp only [mainLoop, h1, h2, h3, h4, h5, if_true]
      exact ih g (by omega) (by omega)
  | case8 fuel acc l rest h1 h2 h3 h4 h5 h6 ih =>
    intro g hf hg
    cases g with
    | zero => omega
    | succ g =>
      simp only [List.length_cons] at hf hg
      simp only [mainLoop, h1, h2, h3, h4, h5, h6, if_true]
      exact ih g (by omega) (by omega)
  | case9 fuel acc l rest h1 h2 h3 h4 h5 h6 h7 ih =>
    intro g hf hg
    cases g with
    | zero => omega
    | succ g =>
      simp only [List.length_cons] at hf hg
      simp only [mainLoop, h1, h2, h3, h4, h5, h6, h7, if_true]
      exact ih g (by omega) (by omega)
  | case10 fuel acc l rest h1 h2 h3 h4 h5 h6 h7 h8 ih =>
    intro g hf hg
    cases g with
    | zero => omega
    | succ g =>
      simp only [List.length_cons] at hf hg
      simp only [mainLoop, h1, h2, h3, h4, h5, h6, h7, h8, if_true]
      exact ih g (by omega) (by omega)
  | case11 fuel acc l rest h1 h2 h3 h4 h5 h6 h7 h8 h9 res pa phId ph ih =>
    intro g hf hg
    cases g with
    | zero => omega
    | succ g =>
      simp only [List.length_cons] at hf hg
      have hres : res = phaseLoop (rest.length + 1)
          { phTitle := "", minutes := 0, purpose := "", steps := [],
            helper := "" } rest := rfl
      have hpa : pa = res.1 := rfl
      have hphId : phId =
          stableId [acc.title, acc.levelText, pa.phTitle, intStr pa.minutes] :=
        rfl
      have hph : ph =
          { id := phId,
            title := if pa.phTitle ≠ "" then pa.phTitle
                     else "Phase " ++ natStr (acc.phases.length + 1),
            minutes := clampMinutes pa.minutes,
            purpose := pa.purpose,
            learnerSteps := pa.steps,
            helperScript := pa.helper } := rfl
      have hr : res.2.length ≤ rest.length := by
        rw [hres]
        exact phaseLoop_rest_le _ _ _
      simp only [mainLoop, h1, h2, h3, h4, h5, h6, h7, h8, h9, if_true]
      rw [← hres, ← hpa, ← hphId, ← hph]
      exact ih g (by omega) (by omega)
  | case12 fuel acc l rest h1 h2 h3 h4 h5 h6 h7 h8 h9 h10 res ih =>
    intro g hf hg
    cases g with
    | zero => omega
    | succ g =>
      simp only [List.length_cons] at hf hg
      have hres : res = twistsLoop rest := rfl
      have hr : res.2.length ≤ rest.length := by
        rw [hres]
        exact twistsLoop_rest_le _
      simp only [mainLoop, h1, h2, h3, h4, h5, h6, h7, h8, h9, h10, if_true]
      rw [← hres]
      exact ih g (by omega) (by omega)
  | case13 fuel acc l rest h1 h2 h3 h4 h5 h6 h7 h8 h9 h10 ih =>
    intro g hf hg
    cases g with
    | zero => omega
    | succ g =>
      simp only [List.length_cons] at hf hg
      simp only [mainLoop, h1, h2, h3, h4, h5, h6, h7, h8, h9, h10]
      exact ih g (by omega) (by omega)

/-- `findSub` finds an actual occurrence: the pattern is a prefix of the
suffix at the reported index. -/
theorem findSub_some (pat : List Char) : ∀ (l : List Char) (i : Nat),
    findSub pat l = some i → pat <+: l.drop i := by
  intro l
  induction l with
  | nil =>
    intro i h
    simp only [findSub] at h
    split at h
    · next hp =>
      injection h with h2
      subst h2
      subst hp
      simp
    · cases h
  | cons c rest ih =>
    intro i h
    simp only [findSub] at h
    split at h
    · next hp =>
      injection h with h2
      subst h2
      simp only [List.drop_zero]
      exact List.isPrefixOf_iff_prefix.mp hp
    · rcases Option.map_eq_some'.mp h with ⟨j, hj, hji⟩
      subst hji
      exact ih j hj

/-- If a (non-empty) pattern occurs nowhere, it occurs nowhere in any
suffix either. -/
theorem findSub_none_drop (pat : List Char) :
    ∀ (l : List Char) (k : Nat),
    findSub pat l = none → findSub pat (l.drop k) = none := by
  intro l
  induction l with
  | nil =>
    intro k h
    simpa [List.drop_nil] using h
  | cons c rest ih =>
    intro k h
    simp only [findSub] at h
    split at h
    · cases h
    · next hp =>
      have hrest : findSub pat rest = none := Option.map_eq_none'.mp h
      cases k with
      | zero =>
        simp only [List.drop_zero, findSub]
        rw [if_neg hp, hrest]
        rfl
      | succ k => exact ih k hrest

/-- Trimming only removes characters: the result is an infix of the
input. -/
theorem jsTrim_data_infix (s : String) : (jsTrim s).data <:+: s.data := by
  show (((s.data.dropWhile jsWs).reverse.dropWhile jsWs).reverse : List Char)
    <:+: s.data
  have h1 : s.data.dropWhile jsWs <:+ s.data := List.dropWhile_suffix _
  have h2 : ((s.data.dropWhile jsWs).reverse.dropWhile jsWs).reverse
      <+: s.data.dropWhile jsWs := by
    have h3 : ((s.data.dropWhile jsWs).reverse.dropWhile jsWs) <:+
        (s.data.dropWhile jsWs).reverse := List.dropWhile_suffix _
    have h4 := (List.reverse_prefix).mpr h3
    rwa [List.reverse_reverse] at h4
  exact List.infix_iff_prefix_suffix.mpr ⟨_, h2, h1⟩

/-- Every span `extractLoop` captures is an infix of the input and, up to
case, starts with the BEGIN marker and ends with the END marker. -/
theorem extractLoop_blocks (fuel : Nat) : ∀ (s : List Char) (b : List Char),
    b ∈ extractLoop fuel s →
    b <:+: s ∧ (lowerL beginMarker.data) <+: lowerL b ∧
    (lowerL endMarker.data) <:+ lowerL b := by
  induction fuel with
  | zero =>
    intro s b h
    simp [extractLoop] at h
  | succ fuel ih =>
    intro s b h
    simp only [extractLoop] at h
    split at h
    · simp at h
    · next i hb =>
      split at h
      · simp at h
      · next j he =>
        simp only [List.mem_cons] at h
        rcases h with rfl | h2
        · have hldrop : ∀ (x : List Char) (n : Nat),
              lowerL (x.drop n) = (lowerL x).drop n := by
            intro x n
            simp [lowerL, List.map_drop]
          have hltake : ∀ (x : List Char) (n : Nat),
              lowerL (x.take n) = (lowerL x).take n := by
            intro x n
            simp [lowerL, List.map_take]
          have hpre := findSub_some _ _ _ hb
          have hend := findSub_some _ _ _ he
          rw [hldrop] at hend
          refine ⟨?_, ?_, ?_⟩
          · exact List.infix_iff_prefix_suffix.mpr
              ⟨s.drop i, List.take_prefix _ _, List.drop_suffix _ _⟩
          · rcases hpre with ⟨t, ht⟩
            have hbl : (lowerL beginMarker.data).length = beginMarker.length := by
              decide
            rw [hltake, hldrop, ← ht, List.take_append_eq_append_take,
              List.take_of_length_le (l := lowerL beginMarker.data) (by omega)]
            exact ⟨_, rfl⟩
          · rcases hend with ⟨t, ht⟩
            have hel : (lowerL endMarker.data).length = endMarker.length := by
              decide
            rw [hltake, hldrop]
            have hL : beginMarker.length + j + endMarker.length =
                (beginMarker.length + j) + endMarker.length := by omega
            rw [hL, List.take_add]
            have hdd : ((lowerL s).drop i).drop (beginMarker.length + j) =
                ((lowerL s).drop (i + beginMarker.length)).drop j := by
              rw [List.drop_drop, List.drop_drop]
              congr 1
              omega
            rw [hdd, ← ht, List.take_append_eq_append_take,
              List.take_of_length_le (l := lowerL endMarker.data) (by omega),
              show endMarker.length - (lowerL endMarker.data).length = 0 by
                omega,
              List.take_zero, List.append_nil]
            exact ⟨_, rfl⟩
        · have hrec := ih _ _ h2
          exact ⟨hrec.1.trans (List.drop_suffix _ _).isInfix, hrec.2.1,
            hrec.2.2⟩

/-- `hexVal` inverts `hexDigit` on digit values. -/
theorem hexVal_hexDigit (d : Nat) (hd : d < 16) : hexVal (hexDigit d) = d := by
  interval_cases d <;> decide

/-- The accumulator of `toHexAux` is simply appended. -/
theorem toHexAux_acc (fuel : Nat) : ∀ (n : Nat) (acc : List Char),
    toHexAux fuel n acc = toHexAux fuel n [] ++ acc := by
  induction fuel with
  | zero => intro n acc; rfl
  | succ fuel ih =>
    intro n acc
    simp only [toHexAux]
    by_cases h : n = 0
    · simp [h]
    · rw [if_neg h, if_neg h, ih (n / 16) (hexDigit (n % 16) :: acc),
        ih (n / 16) [hexDigit (n % 16)]]
      simp

/-- `fromHexL` inverts `toHexAux` when the fuel covers the value. -/
theorem fromHexL_toHexAux : ∀ (fuel n : Nat), n < 16 ^ fuel →
    fromHexL (toHexAux fuel n []) = n := by
  intro fuel
  induction fuel with
  | zero =>
    intro n h
    interval_cases n
    rfl
  | succ fuel ih =>
    intro n h
    by_cases h0 : n = 0
    · subst h0
      rfl
    · simp only [toHexAux, if_neg h0]
      rw [toHexAux_acc]
      unfold fromHexL
      rw [List.foldl_append]
      have hdiv : n / 16 < 16 ^ fuel := by
        rw [Nat.div_lt_iff_lt_mul (by norm_num)]
        calc n < 16 ^ (fuel + 1) := h
        _ = 16 ^ fuel * 16 := by ring
      have hrec := ih (n / 16) hdiv
      unfold fromHexL at hrec
      rw [hrec]
      simp only [List.foldl_cons, List.foldl_nil]
      rw [hexVal_hexDigit _ (Nat.mod_lt _ (by norm_num))]
      omega

/-- `fromHexL` inverts `toHex`. -/
theorem fromHexL_toHex (n : Nat) : fromHexL (toHex n).data = n := by
  unfold toHex
  by_cases h0 : n = 0
  · subst h0
    decide
  · rw [if_neg h0]
    show fromHexL (toHexAux (n + 1) n []) = n
    apply fromHexL_toHexAux
    calc n < 2 ^ n := Nat.lt_two_pow n
    _ ≤ 16 ^ n := Nat.pow_le_pow_left (by norm_num) n
    _ ≤ 16 ^ (n + 1) := Nat.pow_le_pow_right (by norm_num) (by omega)

/-- Hexadecimal rendering is injective. -/
theorem toHex_inj (a b : Nat) (h : toHex a = toHex b) : a = b := by
  rw [← fromHexL_toHex a, ← fromHexL_toHex b, h]

/-- Two canonical keys with different FNV-1a hashes get different
`stableId`s. -/
theorem stableId_hash_ne (p1 p2 : List String)
    (h : fnvHash (lowerStr (jsTrim (joinSep "||" p1))) ≠
      fnvHash (lowerStr (jsTrim (joinSep "||" p2)))) :
    stableId p1 ≠ stableId p2 := by
  intro he
  apply h
  unfold stableId at he
  have hd := congrArg String.data he
  simp only [String.data_append] at hd
  have hx := List.append_cancel_left hd
  exact toHex_inj _ _ (String.ext hx)

/-! ## Claim C1: the validity gate -/

/-- Claim C1 counterexample: `c1Block` has a non-empty parsed title and one
parsed phase, yet `parseOneSessionBlock` drops it — because the code's gate
also requires a non-empty `context`.  The claimed "if and only if" fails in
the "if" direction. -/
theorem c1_gate_counterexample :
    (parseSessionAcc c1Block).title = "t" ∧
    (parseSessionAcc c1Block).phases ≠ [] ∧
    (parseSessionAcc c1Block).context = "" ∧
    parseOneSessionBlock c1Block "A1" "file" = none := by
  refine ⟨by decide, by decide, by decide, by decide⟩

/-- Claim C1 (amended): a parsed block becomes a `Session` if and only if
its parsed title is non-empty AND its parsed context is non-empty AND at
least one phase was parsed; a block failing this gate is dropped silently —
the parse result keeps exactly the blocks whose parse is accepted, and no
error is raised (the functions are total). -/
theorem c1_validity_gate (block fallbackLevel source : String) :
    ((parseOneSessionBlock block fallbackLevel source).isSome = true ↔
      ((parseSessionAcc block).title ≠ "" ∧
       (parseSessionAcc block).context ≠ "" ∧
       (parseSessionAcc block).phases ≠ [])) ∧
    (∀ raw, (parsePerfectHourText raw fallbackLevel source).length =
      ((extractSessionBlocks raw).filter
        (fun b => (parseOneSessionBlock b fallbackLevel source).isSome)).length) := by
  constructor
  · simp only [parseOneSessionBlock]
    split
    · next h =>
      simp only [Option.isSome_none, Bool.false_eq_true, false_iff]
      intro hc
      rcases h with h | h | h
      · exact hc.1 h
      · exact hc.2.1 h
      · exact hc.2.2 h
    · next h =>
      push_neg at h
      simp only [Option.isSome_some, true_iff]
      exact h
  · intro raw
    unfold parsePerfectHourText
    exact length_filterMap_eq _ _

/-! ## Claim C3: the minutes range -/

/-- Claim C3 counterexample: the block `c3Block` parses, and its two phases
reach the runner with `minutes = 0` and `minutes = 120` — `clampMinutes`
in `src/App.tsx` clamps into `[0, 180]`, not `[1, 90]`, so a zero-duration
phase does reach the runner. -/
theorem c3_minutes_counterexample :
    (parseOneSessionBlock c3Block "A1" "file").map
      (fun t => t.phases.map Phase.minutes) = some [0, 120] := by
  decide

/-- Claim C3 (amended): every phase record returned by the parser has an
integral `minutes` value clamped into the range 0 to 180
(`Math.max(0, Math.min(180, ·))`); missing, zero, or non-numeric minute
values are defaulted to 0 rather than rejected, so the runner can receive
a zero-duration phase. -/
theorem c3_minutes_clamped (block fb src : String) (t : Template)
    (hp : parseOneSessionBlock block fb src = some t) :
    ∀ ph ∈ t.phases, 0 ≤ ph.minutes ∧ ph.minutes ≤ 180 := by
  simp only [parseOneSessionBlock] at hp
  split at hp
  · cases hp
  · injection hp with h2
    subst h2
    intro ph hph
    exact mainLoop_minutes_bounds _ _ _ (by simp) ph hph

/-- Claim C3 witness: the 7-minute phase of `c3WBlock` is within bounds. -/
theorem c3_witness : 0 ≤ c3WPhase.minutes ∧ c3WPhase.minutes ≤ 180 :=
  c3_minutes_clamped c3WBlock "A1" "file" c3WTmpl (by decide) c3WPhase
    (by decide)

/-! ## Claim C5: block extraction -/

/-- Claim C5 counterexample: in `c5Raw` the markers appear only in lower
case, so no line of the input (trimmed) equals the literal marker line —
by the claim, no block would be captured and no character of this text
could appear in any parsed Session.  But `extractSessionBlocks` matches
the markers case-insensitively (regex flag `i`) anywhere in the text, so a
block is captured and a session titled `t` is produced. -/
theorem c5_extraction_counterexample :
    ((splitNl c5Raw.data).map (fun l => jsTrim ⟨l⟩)).all
      (fun l => l != beginMarker) = true ∧
    extractSessionBlocks c5Raw ≠ [] ∧
    (parsePerfectHourText c5Raw "A1" "file").map Template.title = ["t"] := by
  refine ⟨by decide, by decide, by decide⟩

/-- Claim C5 (amended): block extraction is a global, case-insensitive,
substring-level scan: each captured span runs from an occurrence of
`BEGIN PERFECT HOUR SESSION` (anywhere in a line, any letter case) to the
earliest following occurrence of `END PERFECT HOUR SESSION`.  Every
captured block is a contiguous substring of the input (so text outside the
captured spans contributes nothing); up to letter case, every captured
span starts with the BEGIN marker and ends with the END marker; and if the
END marker occurs nowhere (an unterminated BEGIN), nothing is captured. -/
theorem c5_extraction_spans (raw : String) :
    (∀ b ∈ extractSessionBlocks raw, b.data <:+: raw.data) ∧
    (∀ b ∈ extractLoop (raw.length + 1) raw.data,
      (lowerL beginMarker.data) <+: lowerL b ∧
      (lowerL endMarker.data) <:+ lowerL b) ∧
    (containsSub (lowerStr raw) (lowerStr endMarker) = false →
      extractSessionBlocks raw = []) := by
  refine ⟨?_, ?_, ?_⟩
  · intro b hb
    rcases List.mem_map.mp hb with ⟨bl, hbl, rfl⟩
    have h1 : (jsTrim ⟨bl⟩).data <:+: bl := jsTrim_data_infix ⟨bl⟩
    exact h1.trans (extractLoop_blocks _ _ _ hbl).1
  · intro b hb
    exact ⟨(extractLoop_blocks _ _ _ hb).2.1, (extractLoop_blocks _ _ _ hb).2.2⟩
  · intro hno
    have hnone : findSub (lowerL endMarker.data) (lowerL raw.data) = none := by
      unfold containsSub at hno
      have h2 : findSub (lowerStr endMarker).data (lowerStr raw).data = none :=
        Option.not_isSome_iff_eq_none.mp (by simp [hno])
      exact h2
    unfold extractSessionBlocks
    have : extractLoop (raw.length + 1) raw.data = [] := by
      simp only [extractLoop]
      split
      · rfl
      · next i hb =>
        have hdrop : findSub (lowerL endMarker.data)
            (lowerL (raw.data.drop (i + beginMarker.length))) = none := by
          have := findSub_none_drop (lowerL endMarker.data) (lowerL raw.data)
            (i + beginMarker.length) hnone
          simpa [lowerL, List.map_drop] using this
        rw [hdrop]
    rw [this]
    rfl

/-- Claim C5 witness: in `c5wRaw` (markers embedded mid-line) the one
captured block `c5wBlock` is a substring of the input and carries both
markers. -/
theorem c5_witness :
    c5wBlock.data <:+: c5wRaw.data ∧
    (lowerL beginMarker.data) <+: lowerL c5wBlock.data ∧
    (lowerL endMarker.data) <:+ lowerL c5wBlock.data := by
  have h := c5_extraction_spans c5wRaw
  exact ⟨h.1 c5wBlock (by decide), h.2.1 c5wBlock.data (by decide)⟩

/-! ## Claim C9: the parser is total -/

/-- Claim C9: the parser is total over arbitrary input.  In this embedding
every parsing function is a total function on all strings (the only
control-flow in the source that could fail to make progress — the
index-juggling `while` loops — is modelled by fuel-bounded recursion, and
the last conjunct proves the loop reaches its exit regardless of the
bound, i.e. the fuel is immaterial).  The empty string yields the empty
list; arbitrary input degrades to a partial result no longer than the
block list; and everything returned passed the validity gate — no error
branch is observable at the public boundary. -/
theorem c9_parser_total :
    (∀ fb src, parsePerfectHourText "" fb src = []) ∧
    (∀ raw fb src, (parsePerfectHourText raw fb src).length ≤
      (extractSessionBlocks raw).length) ∧
    (∀ raw fb src t, t ∈ parsePerfectHourText raw fb src →
      t.title ≠ "" ∧ t.context ≠ "" ∧ t.phases ≠ []) ∧
    (∀ (extra : Nat) (acc : BlockAcc) (ls : List String),
      mainLoop (ls.length + 1 + extra) acc ls = mainLoop (ls.length + 1) acc ls) := by
  refine ⟨?_, ?_, ?_, ?_⟩
  · intro fb src
    have he : extractSessionBlocks "" = [] := by decide
    unfold parsePerfectHourText
    rw [he]
    rfl
  · intro raw fb src
    exact List.length_filterMap_le _ _
  · intro raw fb src t ht
    rcases List.mem_filterMap.mp ht with ⟨b, _, hsome⟩
    exact parseOne_some_valid b fb src t hsome
  · intro extra acc ls
    exact mainLoop_congr (ls.length + 1 + extra) acc ls (ls.length + 1)
      (by omega) (by omega)

/-- Claim C9 witness: the mixed library text `c9Raw` (commentary, one valid
block, one invalid block) parses without error to the single valid session
`c9Tmpl`, which passed the gate. -/
theorem c9_witness :
    c9Tmpl.title ≠ "" ∧ c9Tmpl.context ≠ "" ∧ c9Tmpl.phases ≠ [] :=
  c9_parser_total.2.2.1 c9Raw "A1" "file" c9Tmpl (by decide)

/-! ## Claim C4: identity derivation -/

/-- Claim C4 counterexample: the block `c4Fmt` (level A2, no `ID:` field)
receives the id `ph_fead3941` — prefixed `ph_`, not `{level}_` — because
`stableId` always prefixes `ph_` and hashes `(source, level, title,
context)`.  Moreover `c4CtxA` and `c4CtxB` have the same title and level
but different context texts, and the FNV-1a hashes of their canonical keys
collide, so both derive the very same id `ph_71cb583a` — refuting "two
sessions whose context texts differ never receive the same derived id even
when their titles match". -/
theorem c4_id_counterexample :
    ((parseOneSessionBlock c4Fmt "A1" "file").map Template.id =
      some "ph_fead3941") ∧
    ((parseOneSessionBlock c4Fmt "A1" "file").map Template.level =
      some "A2") ∧
    ((parseOneSessionBlock c4CtxA "A1" "file").map Template.context ≠
      (parseOneSessionBlock c4CtxB "A1" "file").map Template.context) ∧
    ((parseOneSessionBlock c4CtxA "A1" "file").map Template.title =
      (parseOneSessionBlock c4CtxB "A1" "file").map Template.title) ∧
    ((parseOneSessionBlock c4CtxA "A1" "file").map Template.id =
      some "ph_71cb583a") ∧
    ((parseOneSessionBlock c4CtxB "A1" "file").map Template.id =
      some "ph_71cb583a") := by
  refine ⟨by decide, by decide, by decide, by decide, by decide, by decide⟩

/-- Claim C4 (amended): if an `ID:` field is present (non-empty after
trimming), the session id is that value trimmed and lower-cased, verbatim;
otherwise the id is `ph_` followed by the lower-case hex of the FNV-1a
hash of the canonical key built from `source`, `level`, `title` and
`context` (joined with `||`, trimmed, lower-cased) — so re-parsing
identical block text always yields the identical id, and two sessions
whose canonical keys hash differently never receive the same derived id
(32-bit hash collisions can, however, produce equal ids for different
contexts). -/
theorem c4_identity (block fb src : String) (t : Template)
    (hp : parseOneSessionBlock block fb src = some t) :
    (jsTrim (parseSessionAcc block).idLine ≠ "" →
      t.id = lowerStr (jsTrim (parseSessionAcc block).idLine)) ∧
    (jsTrim (parseSessionAcc block).idLine = "" →
      t.id = lowerStr (stableId
        [src, tryExtractCEFR (parseSessionAcc block).levelText fb,
         (parseSessionAcc block).title, (parseSessionAcc block).context])) ∧
    (∀ p1 p2 : List String,
      fnvHash (lowerStr (jsTrim (joinSep "||" p1))) ≠
        fnvHash (lowerStr (jsTrim (joinSep "||" p2))) →
      stableId p1 ≠ stableId p2) := by
  simp only [parseOneSessionBlock] at hp
  split at hp
  · cases hp
  · injection hp with h2
    subst h2
    refine ⟨?_, ?_, fun p1 p2 h => stableId_hash_ne p1 p2 h⟩
    · intro hne
      simp [hne]
    · intro hz
      simp [hz]

/-- Claim C4 witness: the explicit `ID: ABC-7` of `c4IdBlock` becomes the
session id `abc-7` (trimmed, lower-cased, verbatim). -/
theorem c4_witness :
    c4IdTmpl.id = lowerStr (jsTrim (parseSessionAcc c4IdBlock).idLine) ∧
    c4IdTmpl.id = "abc-7" := by
  refine ⟨(c4_identity c4IdBlock "A1" "file" c4IdTmpl (by decide)).1
    (by decide), by decide⟩

/-! ## Claim C2: the countdown state machine -/

/-- Claim C2: while running, one tick decrements `remainingSeconds` by
exactly 1 and stays in the same running phase when the result is positive;
when the countdown expires, the machine transitions to the next phase with
its countdown reset to that phase's full (clamped) duration, or — on the
last phase — to the session-complete state with the timer stopped;
`remainingSeconds` never becomes negative; and starting phase `p` (of
`m = clampMinutes ph.minutes` minutes) and ticking `m * 60` times while
running reaches the boundary exactly once: the first `m * 60 - 1` ticks
stay in phase `p` running, the `m * 60`-th tick performs the (autopausing)
transition, and every further tick is a no-op. -/
theorem c2_tick_countdown (t : Template) (p : Nat) (ph : Phase)
    (_hp : t.phases.get? p = some ph) (hm : 1 ≤ clampMinutes ph.minutes)
    (tid : String) (sh : Bool) (bn : Option String) (cp : List String)
    (M : Nat) (hM : M = (clampMinutes ph.minutes).toNat * 60)
    (s0 : SessionState) (hs0 : s0 = runningAt tid p (M : Int) sh bn cp) :
    (∀ s : SessionState, s.isRunning = true → 1 < s.remainingSeconds →
      tick t s = { s with remainingSeconds := s.remainingSeconds - 1 }) ∧
    (∀ s : SessionState, s.isRunning = true → s.remainingSeconds = 1 →
      t.phases.length ≤ s.phaseIndex + 1 →
      tick t s = { s with completedPhaseIds := markPhaseDone t s,
                          remainingSeconds := 0, isRunning := false,
                          showHelper := false,
                          banner := some "Session complete" }) ∧
    (∀ s : SessionState, s.isRunning = true → s.remainingSeconds = 1 →
      ∀ hlt : s.phaseIndex + 1 < t.phases.length,
      tick t s = { s with completedPhaseIds := markPhaseDone t s,
                          phaseIndex := s.phaseIndex + 1,
                          remainingSeconds :=
                            clampMinutes
                              (t.phases.get ⟨s.phaseIndex + 1, hlt⟩).minutes * 60,
                          isRunning := false, showHelper := false,
                          banner := some "Phase complete" }) ∧
    (∀ s : SessionState, 0 ≤ s.remainingSeconds →
      0 ≤ (tick t s).remainingSeconds) ∧
    (∀ k : Nat, k < M →
      (tick t)^[k] s0 = runningAt tid p ((M - k : Nat) : Int) sh bn cp) ∧
    ((tick t)^[M] s0 = tick t (runningAt tid p 1 sh bn cp)) ∧
    (((tick t)^[M] s0).isRunning = false) ∧
    (∀ j : Nat, (tick t)^[M + j] s0 = (tick t)^[M] s0) ∧
    (∀ k : Nat, 0 ≤ ((tick t)^[k] s0).remainingSeconds) := by
  have hM1 : 1 ≤ M := by
    have : 1 ≤ (clampMinutes ph.minutes).toNat := by omega
    omega
  have htrace : ∀ k : Nat, k < M →
      (tick t)^[k] s0 = runningAt tid p ((M - k : Nat) : Int) sh bn cp := by
    intro k
    induction k with
    | zero =>
      intro _
      simp [hs0]
    | succ k ih =>
      intro hk
      rw [Function.iterate_succ_apply', ih (by omega)]
      rw [tick_of_running_gt t _ rfl (by simp [runningAt]; omega)]
      simp only [runningAt, SessionState.mk.injEq, and_true, true_and]
      omega
  have hstepM : (tick t)^[M] s0 = tick t (runningAt tid p 1 sh bn cp) := by
    have hM' : M = (M - 1) + 1 := by omega
    rw [hM', Function.iterate_succ_apply', htrace (M - 1) (by omega)]
    have : ((M - (M - 1) : Nat) : Int) = 1 := by omega
    rw [this]
  have hstop : ((tick t)^[M] s0).isRunning = false := by
    rw [hstepM]
    exact tick_expired_not_running t _ rfl (by simp [runningAt])
  refine ⟨fun s h1 h2 => tick_of_running_gt t s h1 h2,
          fun s h1 h2 h3 => tick_of_running_end t s h1 (by omega) h3,
          fun s h1 h2 hlt => tick_of_running_mid t s h1 (by omega) hlt,
          fun s h => tick_nonneg t s h, htrace, hstepM, hstop, ?_, ?_⟩
  · intro j
    induction j with
    | zero => rfl
    | succ j ih =>
      have h2 : M + (j + 1) = (M + j) + 1 := by omega
      rw [h2, Function.iterate_succ_apply', ih]
      exact tick_of_paused t _ hstop
  · intro k
    induction k with
    | zero =>
      simp [hs0, runningAt]
    | succ k ih =>
      rw [Function.iterate_succ_apply']
      exact tick_nonneg t _ ih

/-- Claim C2 witness: phase 0 of `rTmpl` has one (clamped) minute; from a
running start with 60 seconds, the first 59 ticks leave the machine running
in phase 0 counting down to 1, and the 60th tick autopauses. -/
theorem c2_witness :
    (tick rTmpl)^[59] (runningAt "a2-0001" 0 60 false none [])
      = runningAt "a2-0001" 0 1 false none [] ∧
    ((tick rTmpl)^[60] (runningAt "a2-0001" 0 60 false none [])).isRunning
      = false := by
  have h := c2_tick_countdown rTmpl 0 ⟨"p1", "p1", 1, "", [], ""⟩
    (by decide) (by decide) "a2-0001" false none [] 60 (by decide)
    (runningAt "a2-0001" 0 60 false none []) (by decide)
  refine ⟨?_, h.2.2.2.2.2.2.1⟩
  have h59 := h.2.2.2.2.1 59 (by omega)
  simpa using h59

/-! ## Claim C6: random selection with a variety window -/

/-- Claim C6: `pickRandomTemplate` returns `null` exactly when the level
(and bias) candidate pool is empty; the returned session always belongs to
that pool; and whenever excluding the six most recently shown ids leaves a
non-empty pool, the returned session's id is not among those six — for
every possible value of the random index. -/
theorem c6_random_variety (templates : List Template) (level bias : String)
    (recents : List String) (idx : Nat) :
    (pickRandomTemplate templates level bias recents idx = none ↔
      levelCandidates templates level bias = []) ∧
    (∀ tpl, pickRandomTemplate templates level bias recents idx = some tpl →
      tpl ∈ levelCandidates templates level bias) ∧
    ((levelCandidates templates level bias).filter
        (fun tpl => !(recents.take 6).contains tpl.id) ≠ [] →
      ∀ tpl, pickRandomTemplate templates level bias recents idx = some tpl →
        tpl.id ∉ recents.take 6) := by
  classical
  set list := levelCandidates templates level bias with hlist
  set pool := list.filter (fun tpl => !(recents.take 6).contains tpl.id)
    with hpool
  by_cases hE : list.isEmpty
  · have hnil : list = [] := List.isEmpty_iff.mp hE
    refine ⟨?_, ?_, ?_⟩
    · simp [pickRandomTemplate, ← hlist, hE, hnil]
    · intro tpl h
      simp [pickRandomTemplate, ← hlist, hE] at h
    · intro hne
      rw [hpool, hnil] at hne
      simp at hne
  · have hpick : pickRandomTemplate templates level bias recents idx =
        (match (if pool.isEmpty then list else pool).get? idx with
         | some t => some t
         | none => (if pool.isEmpty then list else pool).get? 0) := by
      simp only [pickRandomTemplate, ← hlist, hE, Bool.false_eq_true,
        if_false, ← hpool]
    have hne : (if pool.isEmpty then list else pool) ≠ [] := by
      split
      · exact fun hc => hE (by simp [hc])
      · next hp => exact fun hc => hp (by simp [hc])
    have hmem : ∀ tpl,
        pickRandomTemplate templates level bias recents idx = some tpl →
        tpl ∈ (if pool.isEmpty then list else pool) := by
      intro tpl h
      rw [hpick] at h
      rcases hidx : (if pool.isEmpty then list else pool).get? idx with _ | w
      · rw [hidx] at h
        exact List.get?_mem h
      · rw [hidx] at h
        injection h with h2
        subst h2
        exact List.get?_mem hidx
    refine ⟨?_, ?_, ?_⟩
    · constructor
      · intro h
        exfalso
        rw [hpick] at h
        rcases hidx : (if pool.isEmpty then list else pool).get? idx with _ | w
        · rw [hidx] at h
          have h0 : (if pool.isEmpty then list else pool).get? 0 = none := h
          have := List.get?_eq_none.mp h0
          have hlen : (if pool.isEmpty then list else pool).length = 0 := by
            omega
          exact hne (List.length_eq_zero.mp hlen)
        · rw [hidx] at h
          cases h
      · intro h
        exact absurd (by simp [h] : list.isEmpty = true) (by simpa using hE)
    · intro tpl h
      have := hmem tpl h
      split at this
      · exact this
      · exact List.mem_of_mem_filter this
    · intro hfne tpl h
      have hpe : ¬ pool.isEmpty := by
        intro hc
        exact hfne (List.isEmpty_iff.mp hc)
      have hin := hmem tpl h
      rw [if_neg hpe] at hin
      have hf := (List.mem_filter.mp hin).2
      intro hmem6
      have : (recents.take 6).contains tpl.id = true := by
        exact List.contains_iff_exists_mem_beq.mpr ⟨tpl.id, hmem6, by simp⟩
      rw [this] at hf
      simp at hf

/-- Claim C6 witness: in the seven-session catalog `c6Cat` with the six
most recent ids `c6Rec`, the pick at random index 0 is `i7`, whose id is
outside the recency window. -/
theorem c6_witness :
    pickRandomTemplate c6Cat "A2" "Any" c6Rec 0 = some (selMk "i7") ∧
    (selMk "i7").id ∉ c6Rec.take 6 := by
  refine ⟨by decide, ?_⟩
  exact (c6_random_variety c6Cat "A2" "Any" c6Rec 0).2.2 (by decide)
    (selMk "i7") (by decide)

/-! ## Claim C7: deterministic path-mode selection -/

/-- Claim C7: `pickPathTemplate` sorts the level candidates with the stable
sort on the source's comparator (numeric id key when both sides have one,
else host title comparison) and returns the first entry not marked
complete; it returns `null` exactly when there are no candidates; whenever
some candidate is incomplete, the returned session is incomplete — so a
completed session is never returned while another candidate remains
incomplete; and when every candidate is complete it returns the first
entry in sorted order. -/
theorem c7_path_progression (templates : List Template) (level bias : String)
    (done : String → Bool) (titleCmp : String → String → Int) :
    (pickPathTemplate templates level bias done titleCmp = none ↔
      levelCandidates templates level bias = []) ∧
    ((∃ y ∈ levelCandidates templates level bias, done y.id = false) →
      ∀ z, pickPathTemplate templates level bias done titleCmp = some z →
        done z.id = false) ∧
    ((∀ y ∈ levelCandidates templates level bias, done y.id = true) →
      pickPathTemplate templates level bias done titleCmp =
        (sortForPath titleCmp (levelCandidates templates level bias)).head?) := by
  classical
  set list := levelCandidates templates level bias with hlist
  have hperm : (sortForPath titleCmp list).Perm list := by
    unfold sortForPath
    exact List.perm_insertionSort _ list
  by_cases hE : list.isEmpty
  · have hnil : list = [] := List.isEmpty_iff.mp hE
    refine ⟨by simp [pickPathTemplate, ← hlist, hE, hnil], ?_, ?_⟩
    · rintro ⟨y, hy, _⟩
      rw [hnil] at hy
      simp at hy
    · intro _
      have hsnil : sortForPath titleCmp ([] : List Template) = [] := by
        unfold sortForPath
        rfl
      simp [pickPathTemplate, ← hlist, hE, hnil, hsnil]
  · have hsne : sortForPath titleCmp list ≠ [] := by
      intro hc
      have hl := hperm.length_eq
      rw [hc] at hl
      exact hE (by simpa [List.isEmpty_iff, List.length_eq_zero]
        using hl.symm)
    have hpick : pickPathTemplate templates level bias done titleCmp =
        (match (sortForPath titleCmp list).find? (fun t => !done t.id) with
         | some t => some t
         | none => (sortForPath titleCmp list).head?) := by
      simp only [pickPathTemplate, ← hlist, hE, Bool.false_eq_true, if_false]
    refine ⟨?_, ?_, ?_⟩
    · constructor
      · intro h
        exfalso
        rw [hpick] at h
        rcases hf : (sortForPath titleCmp list).find? (fun t => !done t.id)
          with _ | w
        · rw [hf] at h
          have hh : (sortForPath titleCmp list).head? = none := h
          rw [List.head?_eq_none_iff] at hh
          exact hsne hh
        · rw [hf] at h
          cases h
      · intro h
        exact absurd (by simp [h] : list.isEmpty = true) (by simpa using hE)
    · rintro ⟨y, hy, hyd⟩ z hz
      rw [hpick] at hz
      rcases hf : (sortForPath titleCmp list).find? (fun t => !done t.id)
        with _ | w
      · exfalso
        have hall := List.find?_eq_none.mp hf
        have hy2 : y ∈ sortForPath titleCmp list := (hperm.mem_iff).mpr hy
        have := hall y hy2
        simp [hyd] at this
      · rw [hf] at hz
        injection hz with hz2
        subst hz2
        have := List.find?_some hf
        simpa using this
    · intro hall
      rw [hpick]
      have hf : (sortForPath titleCmp list).find? (fun t => !done t.id)
          = none := by
        apply List.find?_eq_none.mpr
        intro x hx
        have hx2 : x ∈ list := (hperm.mem_iff).mp hx
        simp [hall x hx2]
      rw [hf]

/-- Claim C7 witness: with `a2-0001` complete and `a2-0002` not, path mode
returns `a2-0002`, an incomplete session. -/
theorem c7_witness :
    pickPathTemplate [c7T1, c7T2] "A2" "Any" c7Done c7Cmp = some c7T2 ∧
    c7Done c7T2.id = false := by
  refine ⟨by decide, ?_⟩
  exact (c7_path_progression [c7T1, c7T2] "A2" "Any" c7Done c7Cmp).2.1
    ⟨c7T2, by decide, by decide⟩ c7T2 (by decide)

/-! ## Claim C8: pause behaviour -/

/-- Claim C8 counterexample: the code's only pause operation is `toggleRun`,
and applied to an already-paused state it is not a no-op — it flips
`isRunning` back to `true` (resumes).  So "a pause applied to an
already-paused state is a no-op" is false of the code. -/
theorem c8_pause_counterexample :
    rPaused.isRunning = false ∧ (toggleRun rPaused).isRunning = true ∧
    toggleRun rPaused ≠ rPaused := by
  refine ⟨rfl, rfl, ?_⟩
  intro h
  have := congrArg SessionState.isRunning h
  simp [toggleRun, rPaused] at this

/-- Claim C8 (amended): the pause control of the code is the toggle
`toggleRun`.  Applying it never changes `remainingSeconds` or the phase
index (so no time is advanced), and applying it twice in a row restores the
original `isRunning`; but applying it to a paused state resumes
(`isRunning` flips) rather than acting as an idempotent no-op. -/
theorem c8_toggle_pause (s : SessionState) :
    (toggleRun s).remainingSeconds = s.remainingSeconds ∧
    (toggleRun s).phaseIndex = s.phaseIndex ∧
    (toggleRun s).isRunning = !s.isRunning ∧
    (toggleRun (toggleRun s)).remainingSeconds = s.remainingSeconds ∧
    (toggleRun (toggleRun s)).phaseIndex = s.phaseIndex ∧
    (toggleRun (toggleRun s)).isRunning = s.isRunning := by
  simp [toggleRun]

/-! ## Claim C10: every phase boundary autopauses -/

/-- Claim C10: every transition that completes a phase leaves the machine
paused.  A tick that brings the countdown to zero (`remainingSeconds ≤ 1`
while running) yields `isRunning = false`, in both the next-phase and the
session-complete branch; `skipToNext` always yields `isRunning = false`;
and a tick on a non-running state is a no-op, so the next phase's countdown
cannot advance before an explicit resume. -/
theorem c10_phase_boundary_autopause (t : Template) (s : SessionState) :
    (s.isRunning = true → s.remainingSeconds ≤ 1 →
      (tick t s).isRunning = false) ∧
    ((skipToNext t s).isRunning = false) ∧
    (s.isRunning = false → tick t s = s) := by
  refine ⟨?_, ?_, ?_⟩
  · intro hrun hle
    have hnext : ¬ (0 < s.remainingSeconds - 1) := by omega
    simp only [tick, hrun, Bool.not_true, Bool.false_eq_true, if_false,
      hnext, if_false]
    split <;> rfl
  · simp only [skipToNext]
    split <;> rfl
  · intro hpause
    simp [tick, hpause]

/-- Claim C10 witness: the autopause facts at a concrete template and
state (`rTmpl`, a running phase 0 with one second left, and `rRun`). -/
theorem c10_witness :
    (tick rTmpl { rRun with remainingSeconds := 1 }).isRunning = false ∧
    (skipToNext rTmpl rRun).isRunning = false ∧
    tick rTmpl rPaused = rPaused := by
  refine ⟨?_, (c10_phase_boundary_autopause rTmpl rRun).2.1, ?_⟩
  · exact (c10_phase_boundary_autopause rTmpl _).1 rfl (by decide)
  · exact (c10_phase_boundary_autopause rTmpl rPaused).2.2 rfl

end FluentHour
